import Mathlib

/-!
Verification of the dedup/watermark ledger of dd_group_collection.

Shallow embedding of src/dd_collector/dedup.py (class DedupTracker) and of
the per-group batch download loop of src/dd_collector/main.py
(_process_group, lines 182-209).

Python strings are modelled as lists of characters (Str); Python's
lexicographic string comparison is modelled by ltStr below.  The JSON
values stored in the ledger are modelled by JValue; JSON numbers carry no
information relevant to any claim, so they are modelled as a Nat tag
(time.time() becomes an arbitrary Nat argument called now).  The in-memory
dict self._data is modelled as an association list with Python-dict update
semantics (setKey replaces in place, keeps insertion order).
-/

/-- Python strings as lists of characters. -/
abbrev Str := List Char

/-- Turn a Lean string literal into the Str model. -/
def str (s : String) : Str := s.data

/-- Python `s1 < s2` on strings: lexicographic by code point. -/
def ltStr : Str → Str → Bool
  | [], [] => false
  | [], _ :: _ => true
  | _ :: _, [] => false
  | a :: as, b :: bs => if a < b then true else if b < a then false else ltStr as bs

/-- JSON values as stored in data/downloaded.json. -/
inductive JValue where
  | jstr (s : Str)
  | jnum (n : Nat)
  | jbool (b : Bool)
  | jnull
  | jarr (elems : List JValue)
  | jobj (fields : List (Str × JValue))

/-- The in-memory mapping self._data (a JSON object / Python dict). -/
abbrev Ledger := List (Str × JValue)

/-- Python dict lookup d.get(k) / `k in d` support. -/
def lookupKey : Ledger → Str → Option JValue
  | [], _ => none
  | (k, v) :: rest, key => if k = key then some v else lookupKey rest key

/-- Python `key in self._data`. -/
def hasKey (d : Ledger) (k : Str) : Bool := (lookupKey d k).isSome

/-- Python `d[key] = v`: replace in place if present, else append. -/
def setKey : Ledger → Str → JValue → Ledger
  | [], key, v => [(key, v)]
  | (k, w) :: rest, key, v =>
      if k = key then (k, v) :: rest else (k, w) :: setKey rest key v

namespace DedupTracker

/-- dedup.py `_key`: f"{group_name}::{file_name}". -/
def _key (group_name file_name : Str) : Str := group_name ++ str "::" ++ file_name

/-- dedup.py `_chat_key`: f"{group_name}::{msg_timestamp}::{file_name}". -/
def _chat_key (group_name file_name msg_timestamp : Str) : Str :=
  group_name ++ str "::" ++ msg_timestamp ++ str "::" ++ file_name

/-- dedup.py `_WATERMARK_PREFIX` ("__watermark__::"). -/
def watermarkHead : Str := str "__watermark__::"

/-- The key under which a group's watermark is stored:
f"{self._WATERMARK_PREFIX}{group_name}". -/
def watermarkKey (group_name : Str) : Str := watermarkHead ++ group_name

/-- dedup.py `is_downloaded`. -/
def is_downloaded (data : Ledger) (group_name file_name : Str) : Bool :=
  hasKey data (_key group_name file_name)

/-- The entry written by `mark_downloaded` (timestamp = time.time(), dest). -/
def legacyEntry (now : Nat) (dest_path : Str) : JValue :=
  .jobj [(str "timestamp", .jnum now), (str "dest", .jstr dest_path)]

/-- dedup.py `mark_downloaded` (in-memory effect; persistence is modelled
separately by saveFs below). -/
def mark_downloaded (data : Ledger) (group_name file_name dest_path : Str)
    (now : Nat) : Ledger :=
  setKey data (_key group_name file_name) (legacyEntry now dest_path)

/-- dedup.py `get_watermark`: self._data.get(key); if isinstance(entry, dict)
return entry.get("timestamp_str"); else None.  The result is the stored JSON
value (None modelled as Option.none). -/
def get_watermark (data : Ledger) (group_name : Str) : Option JValue :=
  match lookupKey data (watermarkKey group_name) with
  | some (.jobj fields) => lookupKey fields (str "timestamp_str")
  | _ => none

/-- The entry written by `set_watermark`. -/
def watermarkEntry (timestamp_str : Str) (now : Nat) : JValue :=
  .jobj [(str "timestamp_str", .jstr timestamp_str), (str "updated", .jnum now)]

/-- dedup.py `set_watermark` (in-memory effect). -/
def set_watermark (data : Ledger) (group_name timestamp_str : Str)
    (now : Nat) : Ledger :=
  setKey data (watermarkKey group_name) (watermarkEntry timestamp_str now)

/-- dedup.py `is_downloaded_chat`: composite key first, then the legacy
key as backward-compatibility fallback. -/
def is_downloaded_chat (data : Ledger) (group_name file_name msg_timestamp : Str) :
    Bool :=
  if hasKey data (_chat_key group_name file_name msg_timestamp) then true
  else hasKey data (_key group_name file_name)

/-- The entry written by `mark_downloaded_chat`. -/
def chatEntry (now : Nat) (msg_timestamp dest_path : Str) : JValue :=
  .jobj [(str "timestamp", .jnum now), (str "msg_timestamp", .jstr msg_timestamp),
         (str "dest", .jstr dest_path)]

/-- dedup.py `mark_downloaded_chat` (in-memory effect). -/
def mark_downloaded_chat (data : Ledger) (group_name file_name msg_timestamp
    dest_path : Str) (now : Nat) : Ledger :=
  setKey data (_chat_key group_name file_name msg_timestamp)
    (chatEntry now msg_timestamp dest_path)

/-- Scan a reversed string for the first "::" occurrence (i.e. the rightmost
occurrence in the original); returns the characters seen before it.  Used to
model Python's suffix.rsplit("::", 1)[-1]. -/
def revScan : Str → Option Str
  | ':' :: ':' :: _ => some []
  | c :: rest => (revScan rest).map (fun r => c :: r)
  | [] => none

/-- Python: `if "::" in suffix: suffix = suffix.rsplit("::", 1)[-1]` —
the segment after the rightmost "::", or the whole string if none. -/
def afterLastSep (s : Str) : Str :=
  match revScan s.reverse with
  | some r => r.reverse
  | none => s

/-- dedup.py `get_downloaded_for_group`: keys with the group:: head that are
not watermark keys, head stripped, composite keys normalised to the trailing
filename segment. -/
def get_downloaded_for_group (data : Ledger) (group_name : Str) : List Str :=
  data.filterMap (fun kv =>
    if (group_name ++ str "::").isPrefixOf kv.1 &&
       !(watermarkHead.isPrefixOf kv.1) then
      some (afterLastSep (kv.1.drop (group_name ++ str "::").length))
    else none)

/-- dedup.py `_load`'s input: the backing file is absent, parses to a JSON
value, or is unparsable bytes. -/
inductive LoadSource where
  | absent
  | parsed (v : JValue)
  | unparsable

/-- dedup.py `_load`: absent file gives {}; a parse failure or a root that is
not a dict raises inside the try and is caught, giving {}. -/
def _load : LoadSource → Ledger
  | .absent => []
  | .parsed (.jobj fields) => fields
  | .parsed _ => []
  | .unparsable => []

/-- Content of a file on disk as far as the claims observe it: a full,
parsable JSON serialisation of a ledger, or partial/corrupt bytes. -/
inductive FileData where
  | good (d : Ledger)
  | bad

/-- The two paths _save touches: the real store self._path and the
temporary file self._path.with_suffix(".tmp"). -/
structure FsFiles where
  main : Option FileData
  tmp : Option FileData

/-- Which steps of _save fail, as an oracle for the file system:
mkdirFails — self._path.parent.mkdir raises (e.g. the parent path is
occupied by a regular file, so exist_ok=True does not suppress the error);
openFails — open(tmp, "w") raises before the temporary file is created
(e.g. unwritable directory); dumpFails — json.dump raises after the
temporary file was created (partial write); replaceFails — tmp.replace
raises after a complete write of the temporary file. -/
structure FsEnv where
  mkdirFails : Bool
  openFails : Bool
  dumpFails : Bool
  replaceFails : Bool

/-- dedup.py `_save`.  The mkdir call sits OUTSIDE the try block, so its
exception propagates (Except.error).  Inside the try, any exception is
caught; the handler logs and unlinks the temporary file if it exists. -/
def saveFs (env : FsEnv) (fs : FsFiles) (data : Ledger) : Except Unit FsFiles :=
  if env.mkdirFails then .error ()
  else if env.openFails then
    -- open raised: no temporary file was created by this attempt; the
    -- handler still unlinks a pre-existing tmp file if there is one.
    .ok { fs with tmp := none }
  else if env.dumpFails then
    -- tmp was created and partially written, then the handler unlinks it.
    .ok { fs with tmp := none }
  else if env.replaceFails then
    -- tmp was fully written, replace raised, the handler unlinks tmp.
    .ok { fs with tmp := none }
  else
    .ok { main := some (.good data), tmp := none }

/-- `mark_downloaded` with its `_save` call: the in-memory mutation happens
first, then _save runs against the file system. -/
def mark_downloadedFs (env : FsEnv) (fs : FsFiles) (data : Ledger)
    (group_name file_name dest_path : Str) (now : Nat) :
    Ledger × Except Unit FsFiles :=
  let data2 := mark_downloaded data group_name file_name dest_path now
  (data2, saveFs env fs data2)

/-- `mark_downloaded_chat` with its `_save` call. -/
def mark_downloaded_chatFs (env : FsEnv) (fs : FsFiles) (data : Ledger)
    (group_name file_name msg_timestamp dest_path : Str) (now : Nat) :
    Ledger × Except Unit FsFiles :=
  let data2 := mark_downloaded_chat data group_name file_name msg_timestamp
    dest_path now
  (data2, saveFs env fs data2)

/-- `set_watermark` with its `_save` call. -/
def set_watermarkFs (env : FsEnv) (fs : FsFiles) (data : Ledger)
    (group_name timestamp_str : Str) (now : Nat) :
    Ledger × Except Unit FsFiles :=
  let data2 := set_watermark data group_name timestamp_str now
  (data2, saveFs env fs data2)

/-- dedup.py `_load` with its exception structure made explicit: everything
fallible sits inside the try/except, so _load never raises. -/
def loadFs (src : LoadSource) : Except Unit Ledger := .ok (_load src)

end DedupTracker

/-- main.py ChatAttachment, restricted to the fields _process_group's
download loop reads (msg_type, download coordinates and image bounds only
steer the UI automation).  `success` records the outcome of
_download_and_move_chat for this attachment — the oracle for the external
download/move effects — and `dest` the destination path it would report. -/
structure ChatAttachment where
  filename : Str
  timestamp : Str  -- att.timestamp or "" (None is modelled as "")
  dest : Str
  success : Bool

namespace ProcessGroup

open DedupTracker

/-- The newest_downloaded_ts update in _process_group's loop:
`if newest is None or att.timestamp > newest: newest = att.timestamp`. -/
def updNewest (cur : Option Str) (ts : Str) : Option Str :=
  match cur with
  | none => some ts
  | some m => if ltStr m ts then some ts else some m

/-- One iteration of the download loop of _process_group (main.py 185-205),
acting on (in-memory ledger, newest_downloaded_ts).  On success,
_download_and_move_chat has called mark_downloaded_chat with
`att.timestamp or ""`; then, back in the loop, newest_downloaded_ts is
updated when att.timestamp is truthy (non-empty). -/
def stepAtt (group_name : Str) (now : Nat) (acc : Ledger × Option Str)
    (att : ChatAttachment) : Ledger × Option Str :=
  if att.success then
    (mark_downloaded_chat acc.1 group_name att.filename att.timestamp att.dest now,
     if att.timestamp.isEmpty then acc.2 else updNewest acc.2 att.timestamp)
  else acc

/-- The download loop plus the final watermark advance of _process_group
(main.py 182-209).  Returns the ledger after the batch and whether
set_watermark was invoked (`if newest_downloaded_ts:` — truthy means some
non-empty string). -/
def processBatch (data : Ledger) (group_name : Str) (atts : List ChatAttachment)
    (now : Nat) : Ledger × Bool :=
  let r := atts.foldl (stepAtt group_name now) (data, none)
  match r.2 with
  | some ts => if ts.isEmpty then (r.1, false)
               else (set_watermark r.1 group_name ts now, true)
  | none => (r.1, false)

end ProcessGroup

/-! ### Helper lemmas about the ledger operations -/

theorem lookupKey_setKey_self (d : Ledger) (k : Str) (v : JValue) :
    lookupKey (setKey d k v) k = some v := by
  induction d with
  | nil => simp [setKey, lookupKey]
  | cons hd tl ih =>
      obtain ⟨k0, v0⟩ := hd
      by_cases h : k0 = k
      · simp [setKey, h, lookupKey]
      · simp [setKey, h, lookupKey, ih]

theorem lookupKey_setKey_other (d : Ledger) (k k0 : Str) (v : JValue)
    (h : k0 ≠ k) : lookupKey (setKey d k v) k0 = lookupKey d k0 := by
  have hk : k ≠ k0 := Ne.symm h
  induction d with
  | nil => simp [setKey, lookupKey, hk]
  | cons hd tl ih =>
      obtain ⟨k1, v1⟩ := hd
      by_cases h1 : k1 = k
      · subst h1
        simp [setKey, lookupKey, hk]
      · simp [setKey, lookupKey, h1, ih]

theorem hasKey_setKey_self (d : Ledger) (k : Str) (v : JValue) :
    hasKey (setKey d k v) k = true := by
  simp [hasKey, lookupKey_setKey_self]

theorem hasKey_setKey_other (d : Ledger) (k k0 : Str) (v : JValue)
    (h : k0 ≠ k) : hasKey (setKey d k v) k0 = hasKey d k0 := by
  simp [hasKey, lookupKey_setKey_other d k k0 v h]

/-! ### Key-shape lemmas -/

namespace DedupTracker

theorem length_key (g f : Str) : (_key g f).length = g.length + f.length + 2 := by
  simp [_key, str]
  omega

theorem length_chat_key (g f t : Str) :
    (_chat_key g f t).length = g.length + t.length + f.length + 4 := by
  simp [_chat_key, str]
  omega

/-- A legacy key is never a composite key for the same group and file. -/
theorem key_ne_chat_key (g f t : Str) : _key g f ≠ _chat_key g f t := by
  intro h
  have := congrArg List.length h
  rw [length_key, length_chat_key] at this
  omega

/-- Composite keys with the same group and file but different message
timestamps are different. -/
theorem chat_key_inj_ts (g f t1 t2 : Str) (h : t1 ≠ t2) :
    _chat_key g f t1 ≠ _chat_key g f t2 := by
  intro he
  apply h
  have h1 : g ++ str "::" ++ t1 ++ str "::" ++ f
      = g ++ str "::" ++ t2 ++ str "::" ++ f := he
  have h2 := List.append_cancel_right h1
  have h3 := List.append_cancel_right h2
  exact List.append_cancel_left h3

end DedupTracker

/-! ### Claims C4, C5, C6, C10 -/

/-- C4: after mark_downloaded(g, f, d), the composite lookup
is_downloaded_chat(g, f, t) returns true for every timestamp t (including
the empty string) — it falls back to the legacy key on a composite miss. -/
theorem claim_C4_legacy_fallback (data : Ledger) (g f d t : Str) (now : Nat) :
    DedupTracker.is_downloaded_chat
      (DedupTracker.mark_downloaded data g f d now) g f t = true := by
  simp only [DedupTracker.is_downloaded_chat, DedupTracker.mark_downloaded]
  rw [hasKey_setKey_self]
  simp

/-- C5: for t1 ≠ t2, mark_downloaded_chat(g, f, t1, d) does not make
is_downloaded_chat(g, f, t2) true: if it was false before, it stays false. -/
theorem claim_C5_composite_isolation (data : Ledger) (g f t1 t2 d : Str)
    (now : Nat) (hne : t1 ≠ t2)
    (hbefore : DedupTracker.is_downloaded_chat data g f t2 = false) :
    DedupTracker.is_downloaded_chat
      (DedupTracker.mark_downloaded_chat data g f t1 d now) g f t2 = false := by
  have hck : DedupTracker._chat_key g f t2 ≠ DedupTracker._chat_key g f t1 :=
    DedupTracker.chat_key_inj_ts g f t2 t1 (Ne.symm hne)
  have hlk : DedupTracker._key g f ≠ DedupTracker._chat_key g f t1 :=
    DedupTracker.key_ne_chat_key g f t1
  simp only [DedupTracker.is_downloaded_chat, DedupTracker.mark_downloaded_chat]
    at hbefore ⊢
  rw [hasKey_setKey_other _ _ _ _ hck, hasKey_setKey_other _ _ _ _ hlk]
  exact hbefore

/-- Witness for C5 at a concrete instance. -/
theorem claim_C5_composite_isolation_witness :
    str "2025/07/02 13:52" ≠ str "2025/08/01 09:00" ∧
    DedupTracker.is_downloaded_chat [] (str "GroupA") (str "report.pdf")
      (str "2025/08/01 09:00") = false ∧
    DedupTracker.is_downloaded_chat
      (DedupTracker.mark_downloaded_chat [] (str "GroupA") (str "report.pdf")
        (str "2025/07/02 13:52") (str "dest") 0)
      (str "GroupA") (str "report.pdf") (str "2025/08/01 09:00") = false :=
  ⟨by decide, by decide,
   claim_C5_composite_isolation [] (str "GroupA") (str "report.pdf")
     (str "2025/07/02 13:52") (str "2025/08/01 09:00") (str "dest") 0
     (by decide) (by decide)⟩

/-- C6: if the backing store is unparsable, or parses to something that is
not a mapping, _load raises nothing (loadFs returns ok) and the resulting
ledger behaves as empty: is_downloaded is false for every group and file. -/
theorem claim_C6_corruption_resilience (src : DedupTracker.LoadSource)
    (hcorrupt : match src with
      | .unparsable => True
      | .parsed (.jobj _) => False
      | .parsed _ => True
      | .absent => False)
    (g f : Str) :
    DedupTracker.loadFs src = .ok (DedupTracker._load src) ∧
    DedupTracker.is_downloaded (DedupTracker._load src) g f = false := by
  refine ⟨rfl, ?_⟩
  cases src with
  | absent => exact absurd hcorrupt id
  | unparsable => rfl
  | parsed v => cases v <;> first | rfl | exact absurd hcorrupt id

/-- Witness for C6: a JSON array as store root. -/
theorem claim_C6_corruption_resilience_witness :
    DedupTracker.loadFs (.parsed (.jarr []))
        = .ok (DedupTracker._load (.parsed (.jarr []))) ∧
    DedupTracker.is_downloaded (DedupTracker._load (.parsed (.jarr [])))
      (str "GroupA") (str "report.pdf") = false :=
  claim_C6_corruption_resilience (.parsed (.jarr [])) trivial
    (str "GroupA") (str "report.pdf")

/-- C10: if the entry stored under a group's watermark key is not a mapping,
or is a mapping without the "timestamp_str" field, get_watermark returns
None instead of raising or returning a non-string. -/
theorem claim_C10_watermark_malformed (data : Ledger) (g : Str)
    (entry : JValue)
    (hlook : lookupKey data (DedupTracker.watermarkKey g) = some entry)
    (hml : match entry with
      | .jobj fields => lookupKey fields (str "timestamp_str") = none
      | _ => True) :
    DedupTracker.get_watermark data g = none := by
  unfold DedupTracker.get_watermark
  rw [hlook]
  cases entry <;> first | rfl | exact hml

/-- Witness for C10: a scalar stored under the watermark key. -/
theorem claim_C10_watermark_malformed_witness :
    lookupKey [(DedupTracker.watermarkKey (str "GroupA"), JValue.jnum 5)]
        (DedupTracker.watermarkKey (str "GroupA")) = some (JValue.jnum 5) ∧
    DedupTracker.get_watermark
      [(DedupTracker.watermarkKey (str "GroupA"), JValue.jnum 5)]
      (str "GroupA") = none :=
  ⟨by simp [lookupKey],
   claim_C10_watermark_malformed _ (str "GroupA") (JValue.jnum 5)
     (by simp [lookupKey]) trivial⟩

/-! ### Claims C2 and C3 (persistence) -/

/-- C2 is refuted: when the parent path of the backing store is occupied by
a regular file, `self._path.parent.mkdir(parents=True, exist_ok=True)`
raises (exist_ok only suppresses the error when the path is a directory),
and the call sits outside the try block of _save, so mark_downloaded
propagates the exception to the caller. -/
theorem claim_C2_cex :
    (DedupTracker.mark_downloadedFs
        { mkdirFails := true, openFails := false,
          dumpFails := false, replaceFails := false }
        { main := some (.good []), tmp := none }
        [] (str "GroupA") (str "report.pdf") (str "dest") 0).2
      = .error () := rfl

/-- C2 amended: _load never propagates an exception, and _save absorbs and
logs every failure that occurs once the parent directory has been created;
only a failure of the parent-directory mkdir (outside the try block)
propagates to the caller. -/
theorem claim_C2_amended (env : DedupTracker.FsEnv) (fs : DedupTracker.FsFiles)
    (data : Ledger) (src : DedupTracker.LoadSource)
    (hmkdir : env.mkdirFails = false) :
    (∃ fs2, DedupTracker.saveFs env fs data = .ok fs2) ∧
    DedupTracker.loadFs src = .ok (DedupTracker._load src) := by
  refine ⟨?_, rfl⟩
  cases h1 : env.openFails <;> cases h2 : env.dumpFails <;>
    cases h3 : env.replaceFails <;>
    simp [DedupTracker.saveFs, hmkdir, h1, h2, h3]

/-- Witness for the amended C2: an unwritable directory (open fails). -/
theorem claim_C2_amended_witness :
    (DedupTracker.FsEnv.mk false true false false).mkdirFails = false ∧
    ((∃ fs2, DedupTracker.saveFs (DedupTracker.FsEnv.mk false true false false)
        { main := none, tmp := none } [] = .ok fs2) ∧
     DedupTracker.loadFs .unparsable
        = .ok (DedupTracker._load .unparsable)) :=
  ⟨rfl, claim_C2_amended (DedupTracker.FsEnv.mk false true false false)
    { main := none, tmp := none } [] .unparsable rfl⟩

/-- C3: if serialization to the temporary file or the final rename fails,
the original backing-store content is intact and parsable afterwards, the
temporary artifact has been removed, and the in-memory mapping still
contains the mutation. -/
theorem claim_C3_atomic_persist (env : DedupTracker.FsEnv)
    (fs : DedupTracker.FsFiles) (data d0 : Ledger) (g f d : Str) (now : Nat)
    (hmkdir : env.mkdirFails = false) (hopen : env.openFails = false)
    (hfail : env.dumpFails = true ∨ env.replaceFails = true)
    (hmain : fs.main = some (.good d0)) :
    ∃ fs2, (DedupTracker.mark_downloadedFs env fs data g f d now).2 = .ok fs2 ∧
      fs2.main = some (.good d0) ∧ fs2.tmp = none ∧
      lookupKey (DedupTracker.mark_downloadedFs env fs data g f d now).1
        (DedupTracker._key g f) = some (DedupTracker.legacyEntry now d) := by
  refine ⟨{ fs with tmp := none }, ?_, ?_, rfl, ?_⟩
  · cases h2 : env.dumpFails with
    | true =>
        simp [DedupTracker.mark_downloadedFs, DedupTracker.saveFs,
          hmkdir, hopen, h2]
    | false =>
        have h3 : env.replaceFails = true := by
          rcases hfail with h | h
          · rw [h2] at h; exact absurd h (by simp)
          · exact h
        simp [DedupTracker.mark_downloadedFs, DedupTracker.saveFs,
          hmkdir, hopen, h2, h3]
  · simpa using hmain
  · simp [DedupTracker.mark_downloadedFs, DedupTracker.mark_downloaded,
      lookupKey_setKey_self]

/-- Witness for C3: a rename/replace failure. -/
theorem claim_C3_atomic_persist_witness :
    (DedupTracker.FsEnv.mk false false false true).mkdirFails = false ∧
    (DedupTracker.FsEnv.mk false false false true).openFails = false ∧
    ((DedupTracker.FsEnv.mk false false false true).dumpFails = true ∨
     (DedupTracker.FsEnv.mk false false false true).replaceFails = true) ∧
    (DedupTracker.FsFiles.mk (some (.good [])) none).main = some (.good []) ∧
    (∃ fs2, (DedupTracker.mark_downloadedFs
        (DedupTracker.FsEnv.mk false false false true)
        (DedupTracker.FsFiles.mk (some (.good [])) none)
        [] (str "GroupA") (str "report.pdf") (str "dest") 0).2 = .ok fs2 ∧
      fs2.main = some (.good []) ∧ fs2.tmp = none ∧
      lookupKey (DedupTracker.mark_downloadedFs
        (DedupTracker.FsEnv.mk false false false true)
        (DedupTracker.FsFiles.mk (some (.good [])) none)
        [] (str "GroupA") (str "report.pdf") (str "dest") 0).1
        (DedupTracker._key (str "GroupA") (str "report.pdf"))
        = some (DedupTracker.legacyEntry 0 (str "dest"))) :=
  ⟨rfl, rfl, Or.inr rfl, rfl,
   claim_C3_atomic_persist (DedupTracker.FsEnv.mk false false false true)
     (DedupTracker.FsFiles.mk (some (.good [])) none)
     [] [] (str "GroupA") (str "report.pdf") (str "dest") 0
     rfl rfl (Or.inr rfl) rfl⟩

/-! ### Claim C9 (get_downloaded_for_group) -/

/-- C9: get_downloaded_for_group returns exactly one entry per ledger key
with the group:: head that is not a watermark key, with the head stripped
and composite keys normalised to the segment after the last delimiter; in
particular, after marking the composite key
"GroupA::2025/07/02 13:52::report.pdf" and the legacy key
"GroupA::invoice.xlsx", the result for "GroupA" contains "report.pdf" and
"invoice.xlsx". -/
theorem claim_C9_list_downloaded :
    (∀ (data : Ledger) (g x : Str),
      x ∈ DedupTracker.get_downloaded_for_group data g ↔
        ∃ k, k ∈ data.map Prod.fst ∧
          (g ++ str "::").isPrefixOf k = true ∧
          DedupTracker.watermarkHead.isPrefixOf k = false ∧
          x = DedupTracker.afterLastSep (k.drop (g ++ str "::").length)) ∧
    str "report.pdf" ∈ DedupTracker.get_downloaded_for_group
      (DedupTracker.mark_downloaded
        (DedupTracker.mark_downloaded_chat [] (str "GroupA") (str "report.pdf")
          (str "2025/07/02 13:52") (str "dest1") 0)
        (str "GroupA") (str "invoice.xlsx") (str "dest2") 1)
      (str "GroupA") ∧
    str "invoice.xlsx" ∈ DedupTracker.get_downloaded_for_group
      (DedupTracker.mark_downloaded
        (DedupTracker.mark_downloaded_chat [] (str "GroupA") (str "report.pdf")
          (str "2025/07/02 13:52") (str "dest1") 0)
        (str "GroupA") (str "invoice.xlsx") (str "dest2") 1)
      (str "GroupA") := by
  refine ⟨?_, by decide, by decide⟩
  intro data g x
  simp only [DedupTracker.get_downloaded_for_group, List.mem_filterMap,
    Option.ite_none_right_eq_some, Bool.and_eq_true, Bool.not_eq_true',
    Option.some.injEq, List.mem_map]
  constructor
  · rintro ⟨⟨k, v⟩, hmem, ⟨h1, h2⟩, hx⟩
    exact ⟨k, ⟨⟨k, v⟩, hmem, rfl⟩, h1, h2, hx.symm⟩
  · rintro ⟨k, ⟨⟨k2, v⟩, hmem, hk⟩, h1, h2, hx⟩
    subst hk
    exact ⟨⟨k2, v⟩, hmem, ⟨h1, h2⟩, hx.symm⟩

/-! ### Properties of ltStr (Python string comparison) -/

theorem ltStr_irrefl (s : Str) : ltStr s s = false := by
  induction s with
  | nil => rfl
  | cons a as ih => simp [ltStr, lt_irrefl, ih]

theorem ltStr_nil (s : Str) : ltStr s [] = false := by
  cases s <;> rfl

theorem ltStr_trans {a b c : Str} (h1 : ltStr a b = true)
    (h2 : ltStr b c = true) : ltStr a c = true := by
  induction a generalizing b c with
  | nil =>
      cases b with
      | nil => simp [ltStr] at h1
      | cons y ys =>
          cases c with
          | nil => simp [ltStr] at h2
          | cons z zs => simp [ltStr]
  | cons x xs ih =>
      cases b with
      | nil => simp [ltStr] at h1
      | cons y ys =>
          cases c with
          | nil => simp [ltStr] at h2
          | cons z zs =>
              simp only [ltStr] at h1 h2 ⊢
              by_cases hxy : x < y
              · by_cases hyz : y < z
                · simp [lt_trans hxy hyz]
                · by_cases hzy : z < y
                  · simp [hyz, hzy] at h2
                  · have hEq : y = z := le_antisymm (not_lt.mp hzy) (not_lt.mp hyz)
                    subst hEq
                    simp [hxy]
              · by_cases hyx : y < x
                · simp [hxy, hyx] at h1
                · have hEq : x = y := le_antisymm (not_lt.mp hyx) (not_lt.mp hxy)
                  subst hEq
                  have h1a : ltStr xs ys = true := by simpa [lt_irrefl] using h1
                  by_cases hxz : x < z
                  · simp [hxz]
                  · by_cases hzx : z < x
                    · simp [hxz, hzx] at h2
                    · have hEq2 : x = z := le_antisymm (not_lt.mp hzx) (not_lt.mp hxz)
                      subst hEq2
                      have h2a : ltStr ys zs = true := by simpa [lt_irrefl] using h2
                      simp [lt_irrefl, ih h1a h2a]

theorem ltStr_asymm {a b : Str} (h : ltStr a b = true) : ltStr b a = false := by
  by_contra hc
  have hba : ltStr b a = true := by
    cases hv : ltStr b a
    · exact absurd hv hc
    · rfl
  have := ltStr_trans h hba
  rw [ltStr_irrefl] at this
  exact absurd this (by simp)

theorem ltStr_trichotomy (a b : Str) :
    ltStr a b = true ∨ ltStr b a = true ∨ a = b := by
  induction a generalizing b with
  | nil =>
      cases b with
      | nil => exact Or.inr (Or.inr rfl)
      | cons y ys => exact Or.inl rfl
  | cons x xs ih =>
      cases b with
      | nil => exact Or.inr (Or.inl rfl)
      | cons y ys =>
          rcases lt_trichotomy x y with hxy | hxy | hxy
          · exact Or.inl (by simp [ltStr, hxy])
          · subst hxy
            rcases ih ys with h | h | h
            · exact Or.inl (by simp [ltStr, lt_irrefl, h])
            · exact Or.inr (Or.inl (by simp [ltStr, lt_irrefl, h]))
            · exact Or.inr (Or.inr (by rw [h]))
          · exact Or.inr (Or.inl (by simp [ltStr, hxy]))

/-- From not-less-than in both directions, equality. -/
theorem ltStr_connex {a b : Str} (h1 : ltStr a b = false)
    (h2 : ltStr b a = false) : a = b := by
  rcases ltStr_trichotomy a b with h | h | h
  · rw [h] at h1; exact absurd h1 (by simp)
  · rw [h] at h2; exact absurd h2 (by simp)
  · exact h

/-! ### The newest-timestamp fold of _process_group -/

namespace ProcessGroup

/-- The newest_downloaded_ts component of one loop iteration. -/
def stepNewest (acc : Option Str) (att : ChatAttachment) : Option Str :=
  if att.success then
    if att.timestamp.isEmpty then acc else updNewest acc att.timestamp
  else acc

/-- newest_downloaded_ts after the whole loop, starting from cur. -/
def foldNewest (atts : List ChatAttachment) (cur : Option Str) : Option Str :=
  atts.foldl stepNewest cur

/-- The timestamps of the successful attachments that carry a non-empty
timestamp — exactly the values newest_downloaded_ts ranges over. -/
def eligTs (atts : List ChatAttachment) : List Str :=
  (atts.filter (fun a => a.success && !a.timestamp.isEmpty)).map
    (fun a => a.timestamp)

theorem stepAtt_snd (g : Str) (now : Nat) (p : Ledger × Option Str)
    (a : ChatAttachment) : (stepAtt g now p a).2 = stepNewest p.2 a := by
  by_cases h : a.success <;> simp [stepAtt, stepNewest, h]

theorem foldl_stepAtt_snd (g : Str) (now : Nat) (atts : List ChatAttachment)
    (p : Ledger × Option Str) :
    (atts.foldl (stepAtt g now) p).2 = foldNewest atts p.2 := by
  induction atts generalizing p with
  | nil => rfl
  | cons a rest ih =>
      rw [List.foldl_cons, ih]
      unfold foldNewest
      rw [List.foldl_cons, stepAtt_snd]

theorem foldl_stepAtt_allfail (g : Str) (now : Nat) (atts : List ChatAttachment)
    (p : Ledger × Option Str) (h : ∀ a ∈ atts, a.success = false) :
    atts.foldl (stepAtt g now) p = p := by
  induction atts generalizing p with
  | nil => rfl
  | cons a rest ih =>
      rw [List.foldl_cons]
      rw [show stepAtt g now p a = p by simp [stepAtt, h a (by simp)]]
      exact ih _ (fun b hb => h b (by simp [hb]))

/-- updNewest always yields a value; it is at least the new timestamp and at
least the previous value. -/
theorem updNewest_spec (cur : Option Str) (ts : Str) :
    ∃ u, updNewest cur ts = some u ∧ (cur = some u ∨ u = ts) ∧
      ltStr u ts = false ∧ (∀ m, cur = some m → ltStr u m = false) := by
  cases cur with
  | none =>
      exact ⟨ts, rfl, Or.inr rfl, ltStr_irrefl ts, fun m hm => by cases hm⟩
  | some m =>
      by_cases h : ltStr m ts = true
      · refine ⟨ts, by simp [updNewest, h], Or.inr rfl, ltStr_irrefl ts, ?_⟩
        intro m0 hm0
        cases hm0
        exact ltStr_asymm h
      · have h2 : ltStr m ts = false := by
          cases hv : ltStr m ts
          · rfl
          · exact absurd hv h
        refine ⟨m, by simp [updNewest, h2], Or.inl rfl, h2, ?_⟩
        intro m0 hm0
        cases hm0
        exact ltStr_irrefl _

theorem ltStr_false_trans {a b c : Str} (h1 : ltStr a b = false)
    (h2 : ltStr b c = false) : ltStr a c = false := by
  cases hv : ltStr a c
  · rfl
  · rcases ltStr_trichotomy b c with h | h | h
    · rw [h] at h2; exact absurd h2 (by simp)
    · have := ltStr_trans hv h
      rw [this] at h1
      exact absurd h1 (by simp)
    · subst h
      rw [hv] at h1
      exact absurd h1 (by simp)

/-- Characterisation of the newest_downloaded_ts fold: when it yields a
value, that value is the previous one or one of the eligible timestamps,
and it is an upper bound of both. -/
theorem foldNewest_spec (atts : List ChatAttachment) (cur : Option Str) :
    (foldNewest atts cur = none → cur = none ∧ eligTs atts = []) ∧
    (∀ w, foldNewest atts cur = some w →
      (cur = some w ∨ w ∈ eligTs atts) ∧
      (∀ t ∈ eligTs atts, ltStr w t = false) ∧
      (∀ m, cur = some m → ltStr w m = false)) := by
  induction atts generalizing cur with
  | nil =>
      refine ⟨fun h => ⟨h, rfl⟩, fun w h => ⟨Or.inl h, ?_, ?_⟩⟩
      · intro t ht; simp [eligTs] at ht
      · intro m hm
        have hcw : cur = some w := h
        rw [hcw] at hm
        cases hm
        exact ltStr_irrefl w
  | cons a rest ih =>
      have hstep : foldNewest (a :: rest) cur = foldNewest rest (stepNewest cur a) := rfl
      by_cases helig : (a.success && !a.timestamp.isEmpty) = true
      · -- eligible attachment: the accumulator becomes updNewest cur ts
        have hsucc : a.success = true := by
          rcases Bool.and_eq_true_iff.mp helig with ⟨hs, _⟩; exact hs
        have hne : a.timestamp.isEmpty = false := by
          rcases Bool.and_eq_true_iff.mp helig with ⟨_, hn⟩
          simpa using hn
        have hsn : stepNewest cur a = updNewest cur a.timestamp := by
          simp [stepNewest, hsucc, hne]
        have helg : eligTs (a :: rest) = a.timestamp :: eligTs rest := by
          simp [eligTs, List.filter_cons, helig]
        obtain ⟨u, hu, hcu, huts, hum⟩ := updNewest_spec cur a.timestamp
        constructor
        · intro h
          rw [hstep, hsn, hu] at h
          obtain ⟨hc, _⟩ := (ih (some u)).1 h
          cases hc
        · intro w h
          rw [hstep, hsn, hu] at h
          obtain ⟨hw1, hw2, hw3⟩ := (ih (some u)).2 w h
          have hwu : ltStr w u = false := hw3 u rfl
          refine ⟨?_, ?_, ?_⟩
          · rcases hw1 with hw | hw
            · cases hw
              rcases hcu with hc | hc
              · exact Or.inl hc
              · rw [helg, hc]
                exact Or.inr (List.mem_cons_self _ _)
            · rw [helg]
              exact Or.inr (List.mem_cons_of_mem _ hw)
          · rw [helg]
            intro t ht
            rcases List.mem_cons.mp ht with hh | hh
            · subst hh
              exact ltStr_false_trans hwu huts
            · exact hw2 t hh
          · intro m hm
            exact ltStr_false_trans hwu (hum m hm)
      · -- not eligible: the accumulator is unchanged
        have hsn : stepNewest cur a = cur := by
          by_cases hs : a.success = true
          · have hn : a.timestamp.isEmpty = true := by
              cases hv : a.timestamp.isEmpty
              · rw [hs, hv] at helig; exact absurd rfl helig
              · rfl
            simp [stepNewest, hs, hn]
          · have hs2 : a.success = false := by
              cases hv : a.success
              · rfl
              · exact absurd hv hs
            simp [stepNewest, hs2]
        have hb : (a.success && !a.timestamp.isEmpty) = false := by
          cases hv : (a.success && !a.timestamp.isEmpty)
          · rfl
          · exact absurd hv helig
        have helg : eligTs (a :: rest) = eligTs rest := by
          simp [eligTs, List.filter_cons, hb]
        rw [hstep, hsn, helg]
        exact ih cur

end ProcessGroup

/-! ### Claims C1 and C7 (watermark advance over a batch) -/

theorem eligTs_mem_of (atts : List ChatAttachment) (a : ChatAttachment)
    (ha : a ∈ atts) (hs : a.success = true) (ht : a.timestamp ≠ []) :
    a.timestamp ∈ ProcessGroup.eligTs atts := by
  simp only [ProcessGroup.eligTs, List.mem_map, List.mem_filter]
  refine ⟨a, ⟨ha, ?_⟩, rfl⟩
  simp [hs, ht]

theorem eligTs_nonempty_ts (atts : List ChatAttachment) (t : Str)
    (ht : t ∈ ProcessGroup.eligTs atts) : t.isEmpty = false := by
  simp only [ProcessGroup.eligTs, List.mem_map, List.mem_filter] at ht
  obtain ⟨a, ⟨_, hpred⟩, rfl⟩ := ht
  rcases Bool.and_eq_true_iff.mp hpred with ⟨_, hn⟩
  simpa using hn

/-- C1: if at least one attachment in the batch succeeds with a non-empty
timestamp, the watermark stored for the group after the batch is the
lexicographic maximum of the timestamps of the successful attachments
(it is one of them, and no successful attachment's timestamp exceeds it),
regardless of processing order. -/
theorem claim_C1_watermark_is_max (data : Ledger) (g : Str)
    (atts : List ChatAttachment) (now : Nat)
    (h : ∃ a ∈ atts, a.success = true ∧ a.timestamp ≠ []) :
    ∃ w, DedupTracker.get_watermark
        (ProcessGroup.processBatch data g atts now).1 g = some (.jstr w) ∧
      w ∈ ProcessGroup.eligTs atts ∧
      (∀ a ∈ atts, a.success = true → ltStr w a.timestamp = false) := by
  obtain ⟨a, ha, hsucc, hts⟩ := h
  have hmem := eligTs_mem_of atts a ha hsucc hts
  have hsnd := ProcessGroup.foldl_stepAtt_snd g now atts (data, none)
  cases hfn : ProcessGroup.foldNewest atts none with
  | none =>
      obtain ⟨_, helig⟩ := (ProcessGroup.foldNewest_spec atts none).1 hfn
      rw [helig] at hmem
      cases hmem
  | some w =>
      obtain ⟨hw1, hw2, _⟩ := (ProcessGroup.foldNewest_spec atts none).2 w hfn
      have hwelig : w ∈ ProcessGroup.eligTs atts := by
        rcases hw1 with hc | hc
        · cases hc
        · exact hc
      have hwne : w.isEmpty = false := eligTs_nonempty_ts atts w hwelig
      have hr2 : (atts.foldl (ProcessGroup.stepAtt g now) (data, none)).2
          = some w := by rw [hsnd, hfn]
      refine ⟨w, ?_, hwelig, ?_⟩
      · simp only [ProcessGroup.processBatch]
        rw [hr2]
        simp only [hwne, Bool.false_eq_true, if_false]
        simp [DedupTracker.get_watermark, DedupTracker.set_watermark,
          lookupKey_setKey_self, DedupTracker.watermarkEntry, lookupKey]
      · intro b hb hbs
        cases hbt : b.timestamp with
        | nil => exact ltStr_nil w
        | cons c cs =>
            have hmb : b.timestamp ∈ ProcessGroup.eligTs atts :=
              eligTs_mem_of atts b hb hbs (by rw [hbt]; simp)
            exact hbt ▸ hw2 _ hmb

/-- Witness for C1: the P4 batch where two of three attachments succeed. -/
theorem claim_C1_watermark_is_max_witness :
    (∃ a ∈ [ChatAttachment.mk (str "a.pdf") (str "2025/01/01 10:00") (str "d") false,
            ChatAttachment.mk (str "b.pdf") (str "2025/01/01 11:00") (str "d") true,
            ChatAttachment.mk (str "c.pdf") (str "2025/01/01 09:00") (str "d") true],
       a.success = true ∧ a.timestamp ≠ []) ∧
    ∃ w, DedupTracker.get_watermark
        (ProcessGroup.processBatch [] (str "GroupA")
          [ChatAttachment.mk (str "a.pdf") (str "2025/01/01 10:00") (str "d") false,
           ChatAttachment.mk (str "b.pdf") (str "2025/01/01 11:00") (str "d") true,
           ChatAttachment.mk (str "c.pdf") (str "2025/01/01 09:00") (str "d") true]
          0).1 (str "GroupA") = some (.jstr w) ∧
      w ∈ ProcessGroup.eligTs
          [ChatAttachment.mk (str "a.pdf") (str "2025/01/01 10:00") (str "d") false,
           ChatAttachment.mk (str "b.pdf") (str "2025/01/01 11:00") (str "d") true,
           ChatAttachment.mk (str "c.pdf") (str "2025/01/01 09:00") (str "d") true] ∧
      (∀ a ∈ [ChatAttachment.mk (str "a.pdf") (str "2025/01/01 10:00") (str "d") false,
              ChatAttachment.mk (str "b.pdf") (str "2025/01/01 11:00") (str "d") true,
              ChatAttachment.mk (str "c.pdf") (str "2025/01/01 09:00") (str "d") true],
         a.success = true → ltStr w a.timestamp = false) :=
  ⟨⟨ChatAttachment.mk (str "b.pdf") (str "2025/01/01 11:00") (str "d") true,
    by simp, rfl, by simp [str]⟩,
   claim_C1_watermark_is_max [] (str "GroupA") _ 0
     ⟨ChatAttachment.mk (str "b.pdf") (str "2025/01/01 11:00") (str "d") true,
      by simp, rfl, by simp [str]⟩⟩

/-- C7: if no attachment in the batch succeeds, the watermark is unchanged
(including staying absent) and set_watermark is not invoked. -/
theorem claim_C7_no_move_on_failure (data : Ledger) (g : Str)
    (atts : List ChatAttachment) (now : Nat)
    (h : ∀ a ∈ atts, a.success = false) :
    DedupTracker.get_watermark (ProcessGroup.processBatch data g atts now).1 g
      = DedupTracker.get_watermark data g ∧
    (ProcessGroup.processBatch data g atts now).2 = false := by
  have hfold := ProcessGroup.foldl_stepAtt_allfail g now atts (data, none) h
  constructor <;> simp [ProcessGroup.processBatch, hfold]

/-- Witness for C7: a batch with one failed attachment over a ledger with an
existing watermark. -/
theorem claim_C7_no_move_on_failure_witness :
    (∀ a ∈ [ChatAttachment.mk (str "a.pdf") (str "2025/01/02 10:00") (str "d") false],
       a.success = false) ∧
    (DedupTracker.get_watermark
        (ProcessGroup.processBatch
          (DedupTracker.set_watermark [] (str "GroupA") (str "2025/01/01 10:00") 0)
          (str "GroupA")
          [ChatAttachment.mk (str "a.pdf") (str "2025/01/02 10:00") (str "d") false]
          1).1 (str "GroupA")
      = DedupTracker.get_watermark
          (DedupTracker.set_watermark [] (str "GroupA") (str "2025/01/01 10:00") 0)
          (str "GroupA") ∧
     (ProcessGroup.processBatch
        (DedupTracker.set_watermark [] (str "GroupA") (str "2025/01/01 10:00") 0)
        (str "GroupA")
        [ChatAttachment.mk (str "a.pdf") (str "2025/01/02 10:00") (str "d") false]
        1).2 = false) :=
  ⟨by simp,
   claim_C7_no_move_on_failure
     (DedupTracker.set_watermark [] (str "GroupA") (str "2025/01/01 10:00") 0)
     (str "GroupA")
     [ChatAttachment.mk (str "a.pdf") (str "2025/01/02 10:00") (str "d") false]
     1 (by simp)⟩

/-! ### Claim C8 (key-namespace disjointness) -/

theorem isPrefixOf_of_take_eq (p : Str) (l : Str) (h : l.take p.length = p) :
    p.isPrefixOf l = true := by
  induction p generalizing l with
  | nil => cases l <;> rfl
  | cons x xs ih =>
      cases l with
      | nil => simp at h
      | cons y ys =>
          rw [List.length_cons, List.take_succ_cons] at h
          injection h with h1 h2
          subst h1
          show (y == y && xs.isPrefixOf ys) = true
          simp [ih ys h2]

theorem watermarkHead_no_colon_before_13 :
    ∀ i : Fin DedupTracker.watermarkHead.length,
      i.val ≤ 12 → DedupTracker.watermarkHead.get i ≠ ':' := by decide

/-- If "__watermark__::" is not a prefix of group ++ "::", then no key of
the form group ++ "::" ++ tail can be a watermark key. -/
theorem wm_ne_keyed (g1 g2 tail : Str)
    (h : DedupTracker.watermarkHead.isPrefixOf (g2 ++ str "::") = false) :
    DedupTracker.watermarkHead ++ g1 ≠ g2 ++ str "::" ++ tail := by
  intro heq
  have h15 : DedupTracker.watermarkHead.length = 15 := by decide
  by_cases hlen : 15 ≤ g2.length + 2
  · have hlen2 : 15 ≤ (g2 ++ str "::").length := by
      simp only [List.length_append]
      have : (str "::").length = 2 := by decide
      omega
    have t1 : ((g2 ++ str "::") ++ tail).take 15 = (g2 ++ str "::").take 15 :=
      List.take_append_of_le_length hlen2
    have t2 : (DedupTracker.watermarkHead ++ g1).take 15
        = DedupTracker.watermarkHead := by
      conv_lhs => rw [← h15]
      exact List.take_left _ _
    rw [← heq, t2] at t1
    have hpre := isPrefixOf_of_take_eq DedupTracker.watermarkHead (g2 ++ str "::")
      (by rw [h15]; exact t1.symm)
    rw [hpre] at h
    exact absurd h (by simp)
  · have hg2 : g2.length ≤ 12 := by omega
    have hn15 : g2.length < DedupTracker.watermarkHead.length := by omega
    have e1 : (DedupTracker.watermarkHead ++ g1).drop g2.length
        = DedupTracker.watermarkHead.drop g2.length ++ g1 :=
      List.drop_append_of_le_length (by omega)
    rw [List.append_assoc] at heq
    have e2 : (g2 ++ (str "::" ++ tail)).drop g2.length = str "::" ++ tail :=
      List.drop_left _ _
    have hd : DedupTracker.watermarkHead.drop g2.length ++ g1
        = str "::" ++ tail := by
      rw [← e1, ← e2, heq]
    rw [List.drop_eq_getElem_cons hn15, List.cons_append] at hd
    rw [show str "::" = ':' :: [':'] from rfl, List.cons_append] at hd
    injection hd with h1 _
    have hdc : DedupTracker.watermarkHead.get ⟨g2.length, hn15⟩ = ':' := by
      rw [List.get_eq_getElem]
      exact h1
    exact watermarkHead_no_colon_before_13 ⟨g2.length, hn15⟩ hg2 hdc

/-- C8 is refuted as stated: with group name "__watermark__" the legacy
dedup key coincides with the watermark key of group "a", so a SetWatermark
call does make a dedup lookup succeed. -/
theorem claim_C8_cex :
    DedupTracker.watermarkKey (str "a")
        = DedupTracker._key (str "__watermark__") (str "a") ∧
    DedupTracker.is_downloaded
      (DedupTracker.set_watermark [] (str "a") (str "2025/01/01 10:00") 0)
      (str "__watermark__") (str "a") = true := by
  constructor
  · decide
  · decide

/-- C8 amended: the three key shapes are pairwise disjoint for every group
g2 whose string followed by "::" does not begin with the reserved head
"__watermark__::" (in particular for any group name that is not
"__watermark__" and does not start with "__watermark__::"); group names
that do collide with the reserved head break the disjointness. -/
theorem claim_C8_key_disjoint_amended (g1 g2 f t : Str)
    (h : DedupTracker.watermarkHead.isPrefixOf (g2 ++ str "::") = false) :
    DedupTracker.watermarkKey g1 ≠ DedupTracker._key g2 f ∧
    DedupTracker.watermarkKey g1 ≠ DedupTracker._chat_key g2 f t := by
  constructor
  · intro heq
    exact wm_ne_keyed g1 g2 f h heq
  · intro heq
    apply wm_ne_keyed g1 g2 (t ++ str "::" ++ f) h
    simpa [DedupTracker._chat_key, List.append_assoc] using heq

/-- Witness for the amended C8 at ordinary group names. -/
theorem claim_C8_key_disjoint_amended_witness :
    DedupTracker.watermarkHead.isPrefixOf (str "GroupB" ++ str "::") = false ∧
    (DedupTracker.watermarkKey (str "GroupA")
        ≠ DedupTracker._key (str "GroupB") (str "report.pdf") ∧
     DedupTracker.watermarkKey (str "GroupA")
        ≠ DedupTracker._chat_key (str "GroupB") (str "report.pdf")
            (str "2025/07/02 13:52")) :=
  ⟨by decide,
   claim_C8_key_disjoint_amended (str "GroupA") (str "GroupB")
     (str "report.pdf") (str "2025/07/02 13:52") (by decide)⟩
